import Mathlib

/-!
Shallow embedding of `src/mergewarn.go` (the mergewarn merge-conflict
early-warning tool).  The source file holds two iterations of the program;
the later iteration (the one with `TestMode`, `calculateConflicts` and
`outputConflicts`) is the one embedded here, and the earlier iteration's
`processAllDiffs` is noted where it differs.

Modelling conventions:
* Go slices become `List`, Go `int` becomes `Int` (libgit2 line numbers can
  be `-1`), Go strings become `String`.
* A Go `map` iterated with `range` is represented by the association list
  of its entries **in the order the iteration yields them**; Go randomises
  that order, so theorems quantify over every list (every possible order),
  and two lists that are permutations of one another describe the same map
  contents.
* `redisClient.HGetAllMap("mergewarnDiffs")` delivers serialized blobs that
  `json.Unmarshal` decodes into `[]FileEdit`; the Go code discards the
  `Unmarshal` error, leaving the slice empty when the blob is malformed.
  A stored blob is therefore modelled as `Option (List FileEdit)`:
  `some es` is a blob that deserializes to `es`, `none` a malformed blob,
  and decoding a malformed blob yields the empty list exactly as in Go.
* Effectful inputs (the git diff, the shared store contents, transport
  results, the wall clock) become explicit parameters.
-/

/-- FileEdit mirrors the Go struct `FileEdit` of the later iteration:
`Filename`, `LineNumbers` and the `User` tag set when a conflict is
recorded (the zero value `""` before that). -/
structure FileEdit where
  Filename : String
  LineNumbers : List Int
  User : String
deriving DecidableEq

/-- Configuration mirrors the Go struct `Configuration` of the later
iteration, including the single-user `TestMode` flag. -/
structure Configuration where
  RedisURI : String
  RepoDirectory : String
  CurrentUser : String
  RedisPassword : String
  TestMode : Bool
deriving DecidableEq

/-- The Go zero value `Configuration\x7b\x7d`: every string field empty and
`TestMode` false. -/
def zeroConfiguration : Configuration :=
  { RedisURI := "", RepoDirectory := "", CurrentUser := "", RedisPassword := ""
    TestMode := false }

/-- initConfig: the Go function ignores the `os.Open` error and prints the
`Decode` error; it always returns a `Configuration`.  Its input is modelled
as the outcome of decoding `mergewarn.conf.js` (`Except.error` covers both a
missing file — `Decode` on a nil file fails — and unparsable contents).  The
returned flag records whether the error message was printed. -/
def initConfig (decoded : Except String Configuration) : Configuration × Bool :=
  match decoded with
  | .error _ => (zeroConfiguration, true)
  | .ok c => (c, false)

/-- decodeEditSet: `json.Unmarshal([]byte(diffSet), &incomingFileEdits)` with
the error discarded — a malformed blob leaves `incomingFileEdits` as the
empty slice. -/
def decodeEditSet (blob : Option (List FileEdit)) : List FileEdit :=
  blob.getD []

/-- lineMatches: the two innermost loops of `calculateConflicts` — for every
index `a` of the local entry's lines and every index `b` of the peer entry's
lines, when the values coincide the **local** entry, tagged with the peer's
name, is appended. -/
def lineMatches (user : String) (localFileEdit fileEdit : FileEdit) : List FileEdit :=
  localFileEdit.LineNumbers.flatMap (fun a =>
    fileEdit.LineNumbers.flatMap (fun b =>
      if a = b then [{ localFileEdit with User := user }] else []))

/-- fileMatches: the loop over `localFileEdits` guarded by
`localFileEdit.Filename == fileEdit.Filename`. -/
def fileMatches (user : String) (localFileEdits : List FileEdit)
    (fileEdit : FileEdit) : List FileEdit :=
  localFileEdits.flatMap (fun localFileEdit =>
    if localFileEdit.Filename = fileEdit.Filename then
      lineMatches user localFileEdit fileEdit
    else [])

/-- userConflicts: the loop over `incomingFileEdits` for one peer entry. -/
def userConflicts (user : String) (incomingFileEdits localFileEdits : List FileEdit) :
    List FileEdit :=
  incomingFileEdits.flatMap (fun fileEdit => fileMatches user localFileEdits fileEdit)

/-- calculateConflicts: the loop `for user, diffSet := range diffUserMap`
with the guard `user != config.CurrentUser || config.TestMode`.
`sharedState` is the iteration sequence of the `mergewarnDiffs` hash and
`localFileEdits` the result of `buildLocalFileEdits()` (a parameter here,
since building it reads the repository).  The earlier iteration's
`processAllDiffs` is the same computation with guard `user != CurrentUser`
(no `TestMode` field) and notices printed instead of records collected. -/
def calculateConflicts (cfg : Configuration)
    (sharedState : List (String × Option (List FileEdit)))
    (localFileEdits : List FileEdit) : List FileEdit :=
  sharedState.flatMap (fun entry =>
    if entry.1 != cfg.CurrentUser || cfg.TestMode then
      userConflicts entry.1 (decodeEditSet entry.2) localFileEdits
    else [])

/-! ## Diff parsing and the snapshot builder -/

/-- DiffOrigin mirrors the `git.DiffLine.Origin` values the code tests:
`git.DiffLineAddition`, `git.DiffLineDeletion`, and everything else
(context lines and the other libgit2 origins). -/
inductive DiffOrigin where
  | addition
  | deletion
  | context
deriving DecidableEq

/-- One line record delivered by `diff.ForEach(... git.DiffDetailLines)`.
The nested delta/hunk/line callbacks are flattened: `Path` is the enclosing
delta's `file.OldFile.Path`, `NewLineno` and `OldLineno` are the
`git.DiffLine` fields (libgit2 uses `-1` for the absent side). -/
structure DiffLine where
  Origin : DiffOrigin
  NewLineno : Int
  OldLineno : Int
  Path : String
deriving DecidableEq

/-- The line number `parseDiff` records: `if line.NewLineno > 0` use the
new-side number, else the old-side number. -/
def lineNumberOf (dl : DiffLine) : Int :=
  if dl.NewLineno > 0 then dl.NewLineno else dl.OldLineno

/-- insertLine: the effect of `fileEdits[path][lineNumber] = true` on the
map modelled as an association list in insertion order — the set for `path`
is created on first use, and inserting a present line number is a no-op. -/
def insertLine (m : List (String × List Int)) (path : String) (l : Int) :
    List (String × List Int) :=
  match m with
  | [] => [(path, [l])]
  | (p, ls) :: rest =>
    if p = path then (p, if l ∈ ls then ls else ls ++ [l]) :: rest
    else (p, ls) :: insertLine rest path l

/-- parseDiffStep: the body of the line callback — record the line number
when `line.Origin` is `git.DiffLineAddition` or `git.DiffLineDeletion`,
ignore every other line. -/
def parseDiffStep (m : List (String × List Int)) (dl : DiffLine) :
    List (String × List Int) :=
  if dl.Origin = .addition ∨ dl.Origin = .deletion then
    insertLine m dl.Path (lineNumberOf dl)
  else m

/-- parseDiff: folds the line callback over the diff's line records.  The
result stands for the Go `map[string]map[int]bool` with each file's line
set listed in insertion order (Go iterates maps in a randomised order;
insertion order is one of the possible orders, and every set-level
property proved below is order-independent). -/
def parseDiff (diffLines : List DiffLine) : List (String × List Int) :=
  diffLines.foldl parseDiffStep []

/-- buildLocalFileEdits: wraps each `(filename, lineNumberMap)` pair of the
parsed diff into a `FileEdit`, copying the line numbers **in iteration
order with no sorting** (the Go loop is `for l := range lineNumberMap`
followed by `append`); the `User` field keeps its zero value. -/
def buildLocalFileEditsFrom (fileEdits : List (String × List Int)) : List FileEdit :=
  fileEdits.map (fun e => { Filename := e.1, LineNumbers := e.2, User := "" })

/-! ## The publish loop (`waitForLocalChanges` / `sendAndNotifyChange`) -/

/-- The outcome the redis transport reports for one publish attempt:
whether `HSet("mergewarnDiffs", CurrentUser, body)` and
`Publish("newChange", "1")` succeeded.  `sendAndNotifyChange` discards both
result values, so nothing in the loop body can depend on them. -/
structure PublishOutcome where
  hsetOk : Bool
  publishOk : Bool
deriving DecidableEq

/-- deepEqualFileEdit: `reflect.DeepEqual` restricted to one `FileEdit` —
field-by-field, with slice comparison elementwise and order-sensitive. -/
def deepEqualFileEdit (x y : FileEdit) : Bool :=
  x.Filename == y.Filename && x.LineNumbers == y.LineNumbers && x.User == y.User

/-- deepEqualList: `reflect.DeepEqual` on `[]FileEdit` — equal length and
elementwise deep equality, in order. -/
def deepEqualList : List FileEdit → List FileEdit → Bool
  | [], [] => true
  | x :: xs, y :: ys => deepEqualFileEdit x y && deepEqualList xs ys
  | _, _ => false

/-- One iteration of the `waitForLocalChanges` loop body: with
`lastFileEdits` the detector's reference and `fileEdits` the freshly built
snapshot, publish (and overwrite the reference) exactly when
`!reflect.DeepEqual(lastFileEdits, fileEdits)`.  The transport outcome `t`
is a parameter only to record that the Go code never consults it: the new
reference and the published flag are the same whatever `t` is. -/
def waitForLocalChangesIter (lastFileEdits fileEdits : List FileEdit)
    (t : PublishOutcome) : List FileEdit × Bool :=
  if deepEqualList lastFileEdits fileEdits then (lastFileEdits, false)
  else (fileEdits, true)

/-! ## The listen loop (`waitForServerChanges`) -/

/-- The message kinds `waitForServerChanges` switches on:
`*redis.Subscription`, `*redis.Message`, `*redis.Pong`, and any other
value (the `default` arm). -/
inductive PubSubEvent where
  | subscription
  | message
  | pong
  | unknown
deriving DecidableEq

/-- What one iteration of the listen loop did: how many
evaluate-and-report sequences ran (`calculateConflicts` followed by
`outputConflicts`), whether a liveness `Ping` was issued, and whether the
iteration panicked (fatal for the process). -/
structure ListenOutcome where
  evaluations : Nat
  pinged : Bool
  fatal : Bool
deriving DecidableEq

/-- One iteration of the `waitForServerChanges` loop body.  `msgi` is what
`pubsub.Receive()` returned (`none` for a nil interface, which the type
switch sends to the `default` arm), `recvErr` whether `Receive` returned an
error, and `pingOk` the result of the liveness probe issued on that error.
A failed probe panics with the probe error; otherwise the switch runs:
a `Subscription` is ignored, a `Message` triggers exactly one
evaluate-and-report sequence, a `Pong` is printed, and anything else
panics. -/
def waitForServerChangesIter (msgi : Option PubSubEvent) (recvErr pingOk : Bool) :
    ListenOutcome :=
  if recvErr && !pingOk then { evaluations := 0, pinged := true, fatal := true }
  else
    match msgi with
    | some .subscription => { evaluations := 0, pinged := recvErr, fatal := false }
    | some .message => { evaluations := 1, pinged := recvErr, fatal := false }
    | some .pong => { evaluations := 0, pinged := recvErr, fatal := false }
    | some .unknown => { evaluations := 0, pinged := recvErr, fatal := true }
    | none => { evaluations := 0, pinged := recvErr, fatal := true }

/-! ## The reporter (`outputConflicts` / `notice`) -/

/-- serializeLineNumbers: `json.Marshal` of the `[]int` field. -/
def serializeLineNumbers (ls : List Int) : String :=
  "[" ++ String.intercalate "," (ls.map toString) ++ "]"

/-- serializeFileEdit: `json.Marshal` of one `FileEdit`, following the
struct tags `filename`, `lineNumbers`, `user`.  (JSON escaping of special
characters inside the strings is not modelled; every name used below is
escape-free ASCII.) -/
def serializeFileEdit (fe : FileEdit) : String :=
  "\x7b\"filename\":\"" ++ fe.Filename ++ "\",\"lineNumbers\":" ++
    serializeLineNumbers fe.LineNumbers ++ ",\"user\":\"" ++ fe.User ++ "\"\x7d"

/-- serializeFileEdits: `json.Marshal` of the conflict slice.  (Go marshals
a nil slice as `null` rather than `[]`; the distinction plays no role in
the claims below, which compare non-empty outputs.) -/
def serializeFileEdits (conflicts : List FileEdit) : String :=
  "[" ++ String.intercalate "," (conflicts.map serializeFileEdit) ++ "]"

/-- outputConflicts composed with notice: the emitted line is the wall
clock (`time.Now()`, passed in as `ts`), a `|` separator, the JSON body and
a newline. -/
def outputLine (ts : String) (conflicts : List FileEdit) : String :=
  ts ++ "|" ++ serializeFileEdits conflicts ++ "\n"

/-! ## Specification-side predicates used to state the claims -/

/-- sortedAscending: the claim's "sorted in ascending order" on a line
sequence, as a decidable check. -/
def sortedAscending : List Int → Bool
  | [] => true
  | [_] => true
  | a :: b :: rest => decide (a ≤ b) && sortedAscending (b :: rest)

/-- linesOf: the line set the association-list map holds for `p` (the empty
list when `p` has no entry). -/
def linesOf : List (String × List Int) → String → List Int
  | [], _ => []
  | (q, ls) :: rest, p => if q = p then ls else linesOf rest p

/-- isChangedLine: `l` is a line number the diff reports as added or
deleted in file `p` — the set `parseDiff` is meant to collect. -/
def isChangedLine (d : List DiffLine) (p : String) (l : Int) : Bool :=
  d.any (fun dl =>
    (dl.Origin == DiffOrigin.addition || dl.Origin == DiffOrigin.deletion) &&
      dl.Path == p && lineNumberOf dl == l)

/-- wfEdits: the structural invariant of the parsed-diff map — file keys
are pairwise distinct and every stored line set is duplicate-free and
non-empty. -/
def wfEdits (m : List (String × List Int)) : Prop :=
  (m.map Prod.fst).Nodup ∧ ∀ e ∈ m, e.2.Nodup ∧ e.2 ≠ []

/-! ## Sanity check: the specification's worked scenario -/

/-- The spec §8 scenario: local edits `a.txt:[3,7]`, peer bob published
`a.txt:[7,9], b.txt:[1]` — one conflict with bob on `a.txt`; the record
carries the local entry's full line list. -/
theorem calculateConflicts_spec_scenario :
    calculateConflicts
      { zeroConfiguration with CurrentUser := "me" }
      [("bob", some [⟨"a.txt", [7, 9], ""⟩, ⟨"b.txt", [1], ""⟩])]
      [⟨"a.txt", [3, 7], ""⟩]
    = [⟨"a.txt", [3, 7], "bob"⟩] := by decide

/-! ## Shared helper lemmas -/

/-- Deep equality of one `FileEdit` coincides with propositional
equality. -/
theorem deepEqualFileEdit_eq_true_iff (x y : FileEdit) :
    deepEqualFileEdit x y = true ↔ x = y := by
  cases x; cases y
  simp [deepEqualFileEdit, FileEdit.mk.injEq, and_assoc]

/-- Deep equality of `[]FileEdit` slices coincides with propositional
equality of the lists. -/
theorem deepEqualList_eq_true_iff :
    ∀ (l₁ l₂ : List FileEdit), deepEqualList l₁ l₂ = true ↔ l₁ = l₂
  | [], [] => by simp [deepEqualList]
  | [], _ :: _ => by simp [deepEqualList]
  | _ :: _, [] => by simp [deepEqualList]
  | x :: xs, y :: ys => by
    simp [deepEqualList, deepEqualFileEdit_eq_true_iff,
      deepEqualList_eq_true_iff xs ys]

/-! ## C1: self-exclusion unless test mode -/

/-- C1 (confirmed): in `calculateConflicts`, a shared-state entry stored at
the local participant's own key contributes nothing when `TestMode` is off
— the result is the same as if the entry were absent — while with
`TestMode` on the self entry is compared like any peer and contributes the
full `userConflicts` comparison. -/
theorem calculateConflicts_self_exclusion
    (ruri rdir cu pw : String) (xs ys : List (String × Option (List FileEdit)))
    (v : Option (List FileEdit)) (lfe : List FileEdit) :
    calculateConflicts ⟨ruri, rdir, cu, pw, false⟩ (xs ++ (cu, v) :: ys) lfe
      = calculateConflicts ⟨ruri, rdir, cu, pw, false⟩ (xs ++ ys) lfe
    ∧ calculateConflicts ⟨ruri, rdir, cu, pw, true⟩ (xs ++ (cu, v) :: ys) lfe
      = calculateConflicts ⟨ruri, rdir, cu, pw, true⟩ xs lfe
        ++ userConflicts cu (decodeEditSet v) lfe
        ++ calculateConflicts ⟨ruri, rdir, cu, pw, true⟩ ys lfe := by
  constructor <;> simp [calculateConflicts]

/-! ## C6: a malformed peer entry is isolated -/

/-- C6 (confirmed): a shared-state entry whose blob fails to deserialize
(`json.Unmarshal` error discarded, slice left empty) contributes no
conflict record, and the evaluation result equals the result with the
malformed entry absent — every well-formed peer is evaluated as usual. -/
theorem calculateConflicts_malformed_peer_isolated
    (cfg : Configuration) (xs ys : List (String × Option (List FileEdit)))
    (p : String) (lfe : List FileEdit) :
    calculateConflicts cfg (xs ++ (p, none) :: ys) lfe
      = calculateConflicts cfg (xs ++ ys) lfe := by
  simp [calculateConflicts, decodeEditSet, userConflicts]

/-! ## C7: listen-loop event discrimination -/

/-- C7 (confirmed): one iteration of `waitForServerChanges` runs no
evaluation on a `Subscription`, exactly one evaluate-and-report sequence on
a `Message`, none on a `Pong`; any receive error makes it issue a liveness
probe, and a failed probe panics (fatal, zero evaluations). -/
theorem waitForServerChangesIter_event_handling
    (m : Option PubSubEvent) (pingOk : Bool) :
    (waitForServerChangesIter (some .subscription) false pingOk).evaluations = 0
    ∧ waitForServerChangesIter (some .message) false pingOk
        = { evaluations := 1, pinged := false, fatal := false }
    ∧ (waitForServerChangesIter (some .pong) false pingOk).evaluations = 0
    ∧ (waitForServerChangesIter m true pingOk).pinged = true
    ∧ waitForServerChangesIter m true false
        = { evaluations := 0, pinged := true, fatal := true } := by
  cases m with
  | none => cases pingOk <;> exact ⟨rfl, rfl, rfl, rfl, rfl⟩
  | some e => cases e <;> cases pingOk <;> exact ⟨rfl, rfl, rfl, rfl, rfl⟩

/-! ## C10: configuration loading never fails the process -/

/-- C10 (confirmed): whenever opening or decoding `mergewarn.conf.js`
fails, `initConfig` prints the error and returns the zero-value
`Configuration` — empty transport address, empty participant identity,
test mode off — and returns normally rather than exiting. -/
theorem initConfig_error_returns_zero_value (msg : String) :
    initConfig (Except.error msg) = (zeroConfiguration, true)
    ∧ zeroConfiguration.RedisURI = ""
    ∧ zeroConfiguration.CurrentUser = ""
    ∧ zeroConfiguration.TestMode = false :=
  ⟨rfl, rfl, rfl, rfl⟩

/-! ## C4: the change detector is order-sensitive -/

/-- C4 (counterexample): two snapshots that are permutations of one
another — same files, same line sets, only the entry order differs — are
reported as changed by `reflect.DeepEqual`, and a publish occurs, refuting
the claim that entry order carries no meaning for the detector. -/
theorem waitForLocalChangesIter_perm_counterexample :
    ([⟨"a.txt", [1], ""⟩, ⟨"b.txt", [2], ""⟩] : List FileEdit).Perm
      [⟨"b.txt", [2], ""⟩, ⟨"a.txt", [1], ""⟩]
    ∧ (waitForLocalChangesIter
        [⟨"a.txt", [1], ""⟩, ⟨"b.txt", [2], ""⟩]
        [⟨"b.txt", [2], ""⟩, ⟨"a.txt", [1], ""⟩] ⟨true, true⟩).2 = true :=
  ⟨List.Perm.swap _ _ _, by decide⟩

/-- C4 (amended): the detector reports "unchanged" (no publish) exactly
when the fresh snapshot equals the last published one as an ordered
sequence — element-wise deep equality — so identical content in a
different entry order is republished. -/
theorem waitForLocalChangesIter_unchanged_iff
    (lastFe fresh : List FileEdit) (t : PublishOutcome) :
    (waitForLocalChangesIter lastFe fresh t).2 = false ↔ lastFe = fresh := by
  rw [← deepEqualList_eq_true_iff]
  cases h : deepEqualList lastFe fresh <;> simp [waitForLocalChangesIter, h]

/-! ## C5: a failed publish is not retried -/

/-- C5 (counterexample): with an empty last-published reference, a fresh
non-empty snapshot and a transport attempt whose `HSet` and `Publish` both
fail, the loop still replaces the reference with the fresh snapshot — the
claim that the reference is not updated on failure is false. -/
theorem waitForLocalChangesIter_failure_counterexample :
    (waitForLocalChangesIter [] [⟨"a.txt", [1], ""⟩] ⟨false, false⟩).1
      = [⟨"a.txt", [1], ""⟩]
    ∧ (waitForLocalChangesIter [] [⟨"a.txt", [1], ""⟩] ⟨false, false⟩).2 = true
    ∧ ([⟨"a.txt", [1], ""⟩] : List FileEdit) ≠ [] := by decide

/-- C5 (amended): `sendAndNotifyChange` discards the transport results, so
one publish-loop iteration behaves identically for every transport outcome,
and after any attempted publish (detector fired) the "last published"
reference holds the fresh snapshot whether or not the write or broadcast
succeeded — a failed publish is silently lost, not retried. -/
theorem waitForLocalChangesIter_ignores_transport
    (lastFe fresh : List FileEdit) (t t' : PublishOutcome) :
    waitForLocalChangesIter lastFe fresh t = waitForLocalChangesIter lastFe fresh t'
    ∧ (deepEqualList lastFe fresh = false →
        (waitForLocalChangesIter lastFe fresh t).1 = fresh) := by
  refine ⟨rfl, fun h => ?_⟩
  simp [waitForLocalChangesIter, h]

/-- Witness for `waitForLocalChangesIter_ignores_transport` at a concrete
changed snapshot and a failed transport. -/
theorem waitForLocalChangesIter_ignores_transport_witness :
    waitForLocalChangesIter [] [⟨"a.txt", [1], ""⟩] ⟨false, false⟩
        = waitForLocalChangesIter [] [⟨"a.txt", [1], ""⟩] ⟨true, true⟩
    ∧ (waitForLocalChangesIter [] [⟨"a.txt", [1], ""⟩] ⟨false, false⟩).1
        = [⟨"a.txt", [1], ""⟩] :=
  ⟨(waitForLocalChangesIter_ignores_transport [] [⟨"a.txt", [1], ""⟩]
      ⟨false, false⟩ ⟨true, true⟩).1,
    (waitForLocalChangesIter_ignores_transport [] [⟨"a.txt", [1], ""⟩]
      ⟨false, false⟩ ⟨true, true⟩).2 (by decide)⟩

/-! ## C2: overlap reporting and duplicate suppression -/

/-- C2 (counterexample): local edits `a.txt:[7]`, peer bob's stored blob
deserializes to `a.txt:[7,7]` (a line repeated in the stored data).  Both
sides contain `(a.txt, 7)` and bob is not the local user, yet the
evaluation emits two records naming bob, `a.txt` and line 7 — not exactly
one. -/
theorem calculateConflicts_duplicate_counterexample :
    "bob" ≠ "me"
    ∧ (7 : Int) ∈ ([7] : List Int)
    ∧ (7 : Int) ∈ ([7, 7] : List Int)
    ∧ (calculateConflicts ⟨"", "", "me", "", false⟩
        [("bob", some [⟨"a.txt", [7, 7], ""⟩])] [⟨"a.txt", [7], ""⟩]).countP
        (fun r => r.User == "bob" && r.Filename == "a.txt" &&
          r.LineNumbers.contains 7) = 2 := by decide

/-- C2 (amended): when the local edit-set and a peer's deserialized
edit-set share a file and a line, **at least** one conflict record naming
that peer and file and carrying that line appears in the evaluation result;
the same (peer, file, line) may however be reported by several records —
one copy of the local entry is appended per matching pair of line
positions. -/
theorem calculateConflicts_reports_overlap
    (cfg : Configuration) (shared : List (String × Option (List FileEdit)))
    (lfe : List FileEdit) (P F : String) (L : Int)
    (pes : List FileEdit) (le pe : FileEdit)
    (hshared : (P, some pes) ∈ shared)
    (hguard : P ≠ cfg.CurrentUser)
    (hle : le ∈ lfe) (hleF : le.Filename = F) (hleL : L ∈ le.LineNumbers)
    (hpe : pe ∈ pes) (hpeF : pe.Filename = F) (hpeL : L ∈ pe.LineNumbers) :
    ∃ r ∈ calculateConflicts cfg shared lfe,
      r.User = P ∧ r.Filename = F ∧ L ∈ r.LineNumbers := by
  refine ⟨{ le with User := P }, ?_, rfl, hleF, hleL⟩
  simp only [calculateConflicts, List.mem_flatMap]
  refine ⟨(P, some pes), hshared, ?_⟩
  have hg : ((P != cfg.CurrentUser) || cfg.TestMode) = true := by
    simp [hguard]
  simp only [hg, if_true, decodeEditSet, Option.getD_some,
    userConflicts, fileMatches, lineMatches, List.mem_flatMap]
  refine ⟨pe, hpe, le, hle, ?_⟩
  rw [if_pos (hleF.trans hpeF.symm)]
  simp only [List.mem_flatMap]
  exact ⟨L, hleL, L, hpeL, by simp⟩

/-- Witness for `calculateConflicts_reports_overlap` at the spec's worked
scenario. -/
theorem calculateConflicts_reports_overlap_witness :
    ∃ r ∈ calculateConflicts ⟨"", "", "me", "", false⟩
        [("bob", some [⟨"a.txt", [7, 9], ""⟩])] [⟨"a.txt", [3, 7], ""⟩],
      r.User = "bob" ∧ r.Filename = "a.txt" ∧ (7 : Int) ∈ r.LineNumbers :=
  calculateConflicts_reports_overlap ⟨"", "", "me", "", false⟩
    [("bob", some [⟨"a.txt", [7, 9], ""⟩])] [⟨"a.txt", [3, 7], ""⟩]
    "bob" "a.txt" 7 [⟨"a.txt", [7, 9], ""⟩] ⟨"a.txt", [3, 7], ""⟩
    ⟨"a.txt", [7, 9], ""⟩ (by decide) (by decide) (by decide) rfl
    (by decide) (by decide) rfl (by decide)

/-! ## Lemmas about the parsed-diff map -/

/-- Membership in a file's line set after one `fileEdits[path][l] = true`
style insertion. -/
theorem mem_insert_line_set (ls : List Int) (n l : Int) :
    l ∈ (if n ∈ ls then ls else ls ++ [n]) ↔ l ∈ ls ∨ l = n := by
  by_cases hn : n ∈ ls
  · simp only [if_pos hn]
    constructor
    · exact Or.inl
    · rintro (h | rfl)
      · exact h
      · exact hn
  · simp [if_neg hn, List.mem_append]

/-- The file keys after an insertion are the old keys plus (at most) the
inserted path. -/
theorem mem_keys_insertLine (m : List (String × List Int)) (p x : String) (l : Int) :
    x ∈ (insertLine m p l).map Prod.fst ↔ x ∈ m.map Prod.fst ∨ x = p := by
  induction m with
  | nil => simp [insertLine]
  | cons head rest ih =>
    obtain ⟨a, ls⟩ := head
    by_cases hap : a = p
    · subst hap
      have hins : insertLine ((a, ls) :: rest) a l
          = (a, if l ∈ ls then ls else ls ++ [l]) :: rest := by
        simp [insertLine]
      rw [hins]
      simp only [List.map_cons, List.mem_cons]
      tauto
    · simp only [insertLine, if_neg hap, List.map_cons, List.mem_cons, ih,
        or_assoc]

/-- Insertion preserves the structural invariant of the parsed-diff map. -/
theorem insertLine_wf (m : List (String × List Int)) (p : String) (l : Int)
    (h : wfEdits m) : wfEdits (insertLine m p l) := by
  induction m with
  | nil =>
    refine ⟨by simp [insertLine], ?_⟩
    intro e he
    simp only [insertLine, List.mem_singleton] at he
    subst he
    exact ⟨List.nodup_singleton l, by simp⟩
  | cons head rest ih =>
    obtain ⟨a, ls⟩ := head
    obtain ⟨hk, hv⟩ := h
    simp only [List.map_cons, List.nodup_cons] at hk
    by_cases hap : a = p
    · subst hap
      simp only [insertLine, if_pos rfl]
      refine ⟨by simpa [List.nodup_cons] using hk, ?_⟩
      intro e he
      rcases List.mem_cons.mp he with he | he
      · subst he
        obtain ⟨hnd, hne⟩ := hv (a, ls) (List.mem_cons_self _ _)
        by_cases hmem : l ∈ ls
        · simpa [hmem] using ⟨hnd, hne⟩
        · refine ⟨?_, by simp [hmem]⟩
          simp [hmem, List.nodup_append, hnd]
      · exact hv e (List.mem_cons_of_mem _ he)
    · have hwrest : wfEdits rest := ⟨hk.2, fun e he => hv e (List.mem_cons_of_mem _ he)⟩
      have ih' := ih hwrest
      simp only [insertLine, if_neg hap]
      refine ⟨?_, ?_⟩
      · simp only [List.map_cons, List.nodup_cons, mem_keys_insertLine]
        exact ⟨by simp [hk.1, hap], ih'.1⟩
      · intro e he
        rcases List.mem_cons.mp he with he | he
        · subst he
          exact hv (a, ls) (List.mem_cons_self _ _)
        · exact ih'.2 e he

/-- The fold underlying `parseDiff` preserves the structural invariant. -/
theorem parseDiff_loop_wf :
    ∀ (d : List DiffLine) (m : List (String × List Int)),
      wfEdits m → wfEdits (d.foldl parseDiffStep m)
  | [], _, h => h
  | dl :: d', m, h => by
    rw [List.foldl_cons]
    refine parseDiff_loop_wf d' _ ?_
    unfold parseDiffStep
    split
    · exact insertLine_wf m dl.Path (lineNumberOf dl) h
    · exact h

/-- Every parsed diff satisfies the structural invariant. -/
theorem parseDiff_wf (d : List DiffLine) : wfEdits (parseDiff d) :=
  parseDiff_loop_wf d [] ⟨List.nodup_nil, by simp⟩

/-- How one insertion changes `linesOf`. -/
theorem linesOf_insertLine (m : List (String × List Int)) (p : String) (l : Int)
    (q : String) :
    linesOf (insertLine m p l) q =
      if q = p then
        (if l ∈ linesOf m p then linesOf m p else linesOf m p ++ [l])
      else linesOf m q := by
  induction m with
  | nil => simp [insertLine, linesOf, eq_comm]
  | cons head rest ih =>
    obtain ⟨a, ls⟩ := head
    by_cases hap : a = p
    · subst hap
      have hins : insertLine ((a, ls) :: rest) a l
          = (a, if l ∈ ls then ls else ls ++ [l]) :: rest := by
        simp [insertLine]
      rw [hins]
      by_cases haq : q = a
      · subst haq
        simp [linesOf]
      · have h1 : ¬(a = q) := fun h => haq h.symm
        simp [linesOf, h1, haq]
    · have hins : insertLine ((a, ls) :: rest) p l
          = (a, ls) :: insertLine rest p l := by
        simp [insertLine, hap]
      rw [hins]
      by_cases haq : a = q
      · subst haq
        simp [linesOf, hap]
      · simp [linesOf, hap, haq, ih]

/-- Membership in a file's line set after one `parseDiffStep`. -/
theorem mem_linesOf_parseDiffStep (m : List (String × List Int)) (dl : DiffLine)
    (p : String) (l : Int) :
    l ∈ linesOf (parseDiffStep m dl) p ↔
      l ∈ linesOf m p ∨
        ((dl.Origin = .addition ∨ dl.Origin = .deletion) ∧ dl.Path = p ∧
          lineNumberOf dl = l) := by
  unfold parseDiffStep
  by_cases h : dl.Origin = .addition ∨ dl.Origin = .deletion
  · rw [if_pos h, linesOf_insertLine]
    by_cases hp : p = dl.Path
    · subst hp
      rw [if_pos rfl, mem_insert_line_set]
      constructor
      · rintro (hl | rfl)
        · exact Or.inl hl
        · exact Or.inr ⟨h, rfl, rfl⟩
      · rintro (hl | ⟨-, -, rfl⟩)
        · exact Or.inl hl
        · exact Or.inr rfl
    · have hp' : ¬(dl.Path = p) := fun hh => hp hh.symm
      rw [if_neg hp]
      simp [hp']
  · rw [if_neg h]
    simp [h]

/-- Membership in a file's line set across the whole `parseDiff` fold. -/
theorem mem_linesOf_parseDiff_loop :
    ∀ (d : List DiffLine) (m : List (String × List Int)) (p : String) (l : Int),
      l ∈ linesOf (d.foldl parseDiffStep m) p ↔
        l ∈ linesOf m p ∨ isChangedLine d p l = true
  | [], m, p, l => by simp [isChangedLine]
  | dl :: d', m, p, l => by
    rw [List.foldl_cons, mem_linesOf_parseDiff_loop d' (parseDiffStep m dl) p l,
      mem_linesOf_parseDiffStep]
    simp [isChangedLine, or_assoc, and_assoc]

/-- In a map with duplicate-free keys, an entry's stored list is what
`linesOf` returns for its key. -/
theorem linesOf_eq_of_mem :
    ∀ (m : List (String × List Int)) (p : String) (ls : List Int),
      (m.map Prod.fst).Nodup → (p, ls) ∈ m → linesOf m p = ls
  | [], _, _, _, hmem => by cases hmem
  | (a, ls') :: rest, p, ls, hnd, hmem => by
    simp only [List.map_cons, List.nodup_cons] at hnd
    rcases List.mem_cons.mp hmem with h | h
    · injection h with h1 h2
      subst h1
      subst h2
      simp [linesOf]
    · have hap : a ≠ p := by
        intro hh
        subst hh
        exact hnd.1 (List.mem_map.mpr ⟨(a, ls), h, rfl⟩)
      simp only [linesOf, if_neg hap]
      exact linesOf_eq_of_mem rest p ls hnd.2 h

/-! ## C3: the builder does not sort line numbers -/

/-- C3 (counterexample): a diff whose hunk deletes old line 10 and then
adds new line 3 (a later hunk of a file with earlier deletions does
exactly this) makes the snapshot builder emit the line sequence `[10, 3]`,
which is not sorted ascending — the builder copies the set in iteration
order and never sorts. -/
theorem buildLocalFileEdits_unsorted_counterexample :
    buildLocalFileEditsFrom (parseDiff
        [⟨.deletion, -1, 10, "a.txt"⟩, ⟨.addition, 3, -1, "a.txt"⟩])
      = [⟨"a.txt", [10, 3], ""⟩]
    ∧ sortedAscending [10, 3] = false := by decide

/-- C3 (amended): the snapshot builder emits, for each file entry, exactly
the set of line numbers the diff reports changed in that file — but in the
map's iteration order, with no sorting guarantee. -/
theorem buildLocalFileEdits_lines_are_changed_lines (d : List DiffLine) :
    ∀ fe ∈ buildLocalFileEditsFrom (parseDiff d), ∀ l : Int,
      l ∈ fe.LineNumbers ↔ isChangedLine d fe.Filename l = true := by
  intro fe hfe l
  obtain ⟨e, he, rfl⟩ := List.mem_map.mp hfe
  have hk := (parseDiff_wf d).1
  have hlines : linesOf (parseDiff d) e.1 = e.2 :=
    linesOf_eq_of_mem (parseDiff d) e.1 e.2 hk he
  have hmem := mem_linesOf_parseDiff_loop d [] e.1 l
  rw [show (d.foldl parseDiffStep [] : List (String × List Int)) = parseDiff d from rfl,
    hlines] at hmem
  simpa [linesOf] using hmem

/-- Witness for `buildLocalFileEdits_lines_are_changed_lines` at a
one-line diff. -/
theorem buildLocalFileEdits_lines_are_changed_lines_witness :
    (7 : Int) ∈ (⟨"a.txt", [7], ""⟩ : FileEdit).LineNumbers ↔
      isChangedLine [⟨.addition, 7, -1, "a.txt"⟩]
        (⟨"a.txt", [7], ""⟩ : FileEdit).Filename 7 = true :=
  buildLocalFileEdits_lines_are_changed_lines [⟨.addition, 7, -1, "a.txt"⟩]
    ⟨"a.txt", [7], ""⟩ (by decide) 7

/-! ## C8: snapshot well-formedness invariants -/

/-- C8 (confirmed): every snapshot the builder produces has pairwise
distinct filenames with duplicate-free line lists — so a (file, line) pair
appears at most once — every file entry carries a non-empty line list, and
the empty diff yields the valid zero-entry snapshot. -/
theorem buildLocalFileEdits_wellformed (d : List DiffLine) :
    ((buildLocalFileEditsFrom (parseDiff d)).map FileEdit.Filename).Nodup
    ∧ (∀ fe ∈ buildLocalFileEditsFrom (parseDiff d),
        fe.LineNumbers.Nodup ∧ fe.LineNumbers ≠ [])
    ∧ buildLocalFileEditsFrom (parseDiff []) = [] := by
  obtain ⟨hk, hv⟩ := parseDiff_wf d
  refine ⟨?_, ?_, rfl⟩
  · have hmaps : (buildLocalFileEditsFrom (parseDiff d)).map FileEdit.Filename
        = (parseDiff d).map Prod.fst := by
      simp only [buildLocalFileEditsFrom, List.map_map]
      rfl
    rw [hmaps]
    exact hk
  · intro fe hfe
    obtain ⟨e, he, rfl⟩ := List.mem_map.mp hfe
    exact hv e he

/-- Witness for `buildLocalFileEdits_wellformed` at a concrete two-line
diff of one file. -/
theorem buildLocalFileEdits_wellformed_witness :
    (⟨"a.txt", [3, 7], ""⟩ : FileEdit).LineNumbers.Nodup
    ∧ (⟨"a.txt", [3, 7], ""⟩ : FileEdit).LineNumbers ≠ [] :=
  (buildLocalFileEdits_wellformed
      [⟨.addition, 3, -1, "a.txt"⟩, ⟨.addition, 7, -1, "a.txt"⟩]).2.1
    ⟨"a.txt", [3, 7], ""⟩ (by decide)

/-! ## C9: evaluate-and-report output determinism -/

/-- C9 (counterexample): the same shared-state contents — entries for alice
and bob, listed in the two orders Go's randomised map iteration can
produce (the two lists are permutations of one another) — and the same
local edit-set yield different serialized report lines, because the
conflict records follow the iteration order. -/
theorem outputLine_order_counterexample :
    ([("alice", some [⟨"f", [1], ""⟩]), ("bob", some [⟨"f", [2], ""⟩])] :
        List (String × Option (List FileEdit))).Perm
      [("bob", some [⟨"f", [2], ""⟩]), ("alice", some [⟨"f", [1], ""⟩])]
    ∧ outputLine "t" (calculateConflicts ⟨"", "", "me", "", false⟩
        [("alice", some [⟨"f", [1], ""⟩]), ("bob", some [⟨"f", [2], ""⟩])]
        [⟨"f", [1, 2], ""⟩])
      ≠ outputLine "t" (calculateConflicts ⟨"", "", "me", "", false⟩
        [("bob", some [⟨"f", [2], ""⟩]), ("alice", some [⟨"f", [1], ""⟩])]
        [⟨"f", [1, 2], ""⟩]) :=
  ⟨List.Perm.swap _ _ _, by decide⟩

/-- C9 (amended): the evaluation is a pure function of the iteration
sequence, and for two iteration sequences of the same shared-state
contents (permutations of one another) the two evaluations produce the
same records up to order — so the multiset of reported conflicts is
deterministic, while the byte output may differ between runs because Go
randomises the iteration order (and the timestamp prefix differs). -/
theorem calculateConflicts_perm_invariant
    (cfg : Configuration) (s₁ s₂ : List (String × Option (List FileEdit)))
    (lfe : List FileEdit) (h : s₁.Perm s₂) :
    (calculateConflicts cfg s₁ lfe).Perm (calculateConflicts cfg s₂ lfe) :=
  h.flatMap_right _

/-- Witness for `calculateConflicts_perm_invariant` at the two iteration
orders of the counterexample's shared state. -/
theorem calculateConflicts_perm_invariant_witness :
    (calculateConflicts ⟨"", "", "me", "", false⟩
        [("alice", some [⟨"f", [1], ""⟩]), ("bob", some [⟨"f", [2], ""⟩])]
        [⟨"f", [1, 2], ""⟩]).Perm
      (calculateConflicts ⟨"", "", "me", "", false⟩
        [("bob", some [⟨"f", [2], ""⟩]), ("alice", some [⟨"f", [1], ""⟩])]
        [⟨"f", [1, 2], ""⟩]) :=
  calculateConflicts_perm_invariant ⟨"", "", "me", "", false⟩ _ _ _
    (List.Perm.swap _ _ _)
